import Mathlib

/-!
Shallow embedding of the robust trend-fitting and offset-estimation core of
pygmtsar's PRM.py: `PRM.robust_trend2d` (lines 22-123) and `PRM.fitoffset`
(lines 608-700). Real-valued numpy floats are modelled by exact rationals.
External library routines are parameters of the embedding: sklearn's
`LinearRegression` fit appears as the function argument `fit` (returning
`(mlr.intercept_, mlr.coef_)`), and scipy's regularized incomplete beta
function `sc.betainc` appears as the function argument `betainc`.
-/

/-- A decidable-equality routine for `Except`, used to evaluate concrete runs. -/
def exceptDecEq {ε α : Type} [DecidableEq ε] [DecidableEq α] : DecidableEq (Except ε α)
  | .error a, .error b =>
    if h : a = b then isTrue (by rw [h]) else isFalse (by intro hc; cases hc; exact h rfl)
  | .error _, .ok _ => isFalse (by intro hc; cases hc)
  | .ok _, .error _ => isFalse (by intro hc; cases hc)
  | .ok a, .ok b =>
    if h : a = b then isTrue (by rw [h]) else isFalse (by intro hc; cases hc; exact h rfl)

instance {ε α : Type} [DecidableEq ε] [DecidableEq α] : DecidableEq (Except ε α) :=
  exceptDecEq

/-- The distinct `raise Exception(...)` sites of the core, told apart by their
message text, plus the Python `IndexError` raised by out-of-range list indexing:
`invalidRank` is `'Number of model parameters "rank" should be 1, 2, or 3'`
(PRM.py line 71), `invalidSource` is `'One and only one argument matrix or
matrix_fromfile should be defined'` (line 653), `insufficientData` is
`'FAILED - not enough points to estimate parameters ...'` (line 663). -/
inductive PyErr : Type
  | invalidRank
  | invalidSource
  | insufficientData
  | indexError
  deriving DecidableEq

/-- Reading column `i` of a numpy matrix row. Rows of a well-formed measurement
matrix always have the required columns; a read past the end of a malformed row
returns 0 here. (Fallible Python *list* indexing is `pyidx` below.) -/
def col (l : List ℚ) (i : ℕ) : ℚ := l.getD i 0

/-- Python list indexing `coef[i]`: raises `IndexError` when out of range. -/
def pyidx (l : List ℚ) (i : ℕ) : Except PyErr ℚ :=
  match l.get? i with
  | some v => .ok v
  | none => .error .indexError

/-- `np.min` of a nonempty batch (only ever applied to nonempty data here). -/
def npmin : List ℚ → ℚ
  | [] => 0
  | h :: t => t.foldl min h

/-- `np.max` of a nonempty batch (only ever applied to nonempty data here). -/
def npmax : List ℚ → ℚ
  | [] => 0
  | h :: t => t.foldl max h

/-- `np.median`: middle element of the sorted data for odd length, mean of the
two middle elements for even length (0 for the empty list, which numpy maps to
nan with a warning; never reached on the data sizes fitoffset admits). -/
def npmedian (l : List ℚ) : ℚ :=
  if l.length = 0 then 0
  else if l.length % 2 = 1 then col (l.insertionSort (· ≤ ·)) (l.length / 2)
  else (col (l.insertionSort (· ≤ ·)) (l.length / 2 - 1) +
        col (l.insertionSort (· ≤ ·)) (l.length / 2)) / 2

/-- 1.4826, the normal-distribution MAD scale factor (PRM.py line 66). -/
def MAD_NORMALIZE : ℚ := 14826 / 10000

/-- The significance threshold 0.51 (PRM.py line 68). -/
def sig_threshold : ℚ := 51 / 100

/-- `gmtstat_f_q` (PRM.py lines 74-81, after gmt_stat.c): the convergence
significance helper. `betainc a b x` stands for the external library call
`scipy.special.betainc(a, b, x)`. -/
def gmtstat_f_q (betainc : ℚ → ℚ → ℚ → ℚ) (chisq1 nu1 chisq2 nu2 : ℚ) : ℚ :=
  if chisq1 = 0 then 1
  else if chisq2 = 0 then 0
  else betainc (1 / 2 * nu2) (1 / 2 * nu1) (chisq2 / (chisq2 + chisq1))

/-- `np.interp(x, (x.min(), x.max()), (-1, +1))`: linear rescaling of a batch
onto [-1, +1]. (When min = max numpy's behaviour is unspecified; here the
rational division by zero makes every entry -1 in that degenerate case.) -/
def npinterp_norm (xs : List ℚ) : List ℚ :=
  xs.map (fun v => -1 + (v - npmin xs) * 2 / (npmax xs - npmin xs))

/-- The regressor matrix `xy` of robust_trend2d (PRM.py lines 83-97): rank 1
gives one all-zero column, rank 2 the normalized x column, rank 3 the
normalized x and y columns. Only reached for rank in {1,2,3}. -/
def design (data : List (List ℚ)) (rank : ℤ) : List (List ℚ) :=
  if rank = 1 then data.map (fun _ => [0])
  else if rank = 2 then (npinterp_norm (data.map (fun row => col row 0))).map (fun v => [v])
  else (List.zip (npinterp_norm (data.map (fun row => col row 0)))
                 (npinterp_norm (data.map (fun row => col row 1)))).map (fun p => [p.1, p.2])

/-- sklearn prediction `mlr.predict` for one row: intercept + row · coef. -/
def predict (intercept : ℚ) (coef : List ℚ) (row : List ℚ) : ℚ :=
  intercept + (List.zip coef row).foldl (fun acc p => acc + p.1 * p.2) 0

/-- `r = np.abs(z - mlr.predict(xy))` (PRM.py line 108). -/
def residuals (z pred : List ℚ) : List ℚ :=
  (List.zip z pred).map (fun p => |p.1 - p.2|)

/-- `chisq = np.sum(r**2 * w) / (z.size - 3)` (PRM.py line 109). -/
def chisq_of (r w : List ℚ) (n : ℕ) : ℚ :=
  ((List.zip r w).map (fun p => p.1 ^ 2 * p.2)).sum / ((n : ℚ) - 3)

/-- `k = 1.5 * MAD_NORMALIZE * np.median(r)` (PRM.py line 111). -/
def kval (r : List ℚ) : ℚ := 3 / 2 * MAD_NORMALIZE * npmedian r

/-- One entry of `w = np.where(r <= k, 1, (2*k/r) - (k*k/(r**2)))`
(PRM.py line 112). -/
def weight_update (k r : ℚ) : ℚ :=
  if r ≤ k then 1 else 2 * k / r - k * k / r ^ 2

/-- The mutable state of robust_trend2d's while-loop: the weight vector `w`,
the chi-squared history `chisqs` (most recent last) and the retained
coefficient list `coeffs`. -/
structure LoopState : Type where
  w : List ℚ
  chisqs : List ℚ
  coeffs : List ℚ

/-- One pass of robust_trend2d's while-loop (PRM.py lines 104-120), returning
the updated state and the significance `sig` the loop then tests. -/
def robust_iter (betainc : ℚ → ℚ → ℚ → ℚ)
    (fit : List (List ℚ) → List ℚ → List ℚ → ℚ × List ℚ)
    (xy : List (List ℚ)) (z : List ℚ) (st : LoopState) : LoopState × ℚ :=
  let b := fit xy z st.w
  let r := residuals z (xy.map (predict b.1 b.2))
  let c := chisq_of r st.w z.length
  let chisqs := st.chisqs ++ [c]
  let k := kval r
  let w := r.map (weight_update k)
  let sig := if chisqs.length = 1 then 1
    else gmtstat_f_q betainc c ((z.length : ℚ) - 3) (st.chisqs.getLast?.getD 0)
      ((z.length : ℚ) - 3)
  let coeffs := if chisqs.length = 1 ∨ st.chisqs.getLast?.getD 0 > c
    then b.1 :: b.2 else st.coeffs
  (⟨w, chisqs, coeffs⟩, sig)

/-- The `while True` loop of robust_trend2d, with explicit fuel: the source has
no iteration bound, so `none` reports that the loop is still running when the
fuel runs out. -/
def robust_loop (betainc : ℚ → ℚ → ℚ → ℚ)
    (fit : List (List ℚ) → List ℚ → List ℚ → ℚ × List ℚ)
    (xy : List (List ℚ)) (z : List ℚ) : ℕ → LoopState → Option (List ℚ)
  | 0, _ => none
  | fuel + 1, st =>
    let p := robust_iter betainc fit xy z st
    if p.2 < sig_threshold then some p.1.coeffs
    else robust_loop betainc fit xy z fuel p.1

/-- `PRM.robust_trend2d(data, rank)` (PRM.py lines 22-123). Raises unless rank
is 1, 2 or 3; otherwise iterates reweighted fits and returns `coeffs[:rank]`
of the retained `[mlr.intercept_, *mlr.coef_]`. -/
def robust_trend2d (betainc : ℚ → ℚ → ℚ → ℚ)
    (fit : List (List ℚ) → List ℚ → List ℚ → ℚ × List ℚ)
    (fuel : ℕ) (data : List (List ℚ)) (rank : ℤ) : Except PyErr (Option (List ℚ)) :=
  if rank = 1 ∨ rank = 2 ∨ rank = 3 then
    match robust_loop betainc fit (design data rank) (data.map (fun row => col row 2)) fuel
        ⟨List.replicate (data.map (fun row => col row 2)).length 1, [], []⟩ with
    | none => .ok none
    | some coeffs => .ok (some (coeffs.take rank.toNat))
  else .error .invalidRank

/-- Python `int()`: truncation toward zero. -/
def pytrunc (q : ℚ) : ℤ := if 0 ≤ q then Rat.floor q else -Rat.floor (-q)

/-- `math.fmod(q, 1)`: q minus its truncation toward zero (same sign as q). -/
def pyfmod1 (q : ℚ) : ℚ := q - pytrunc q

/-- `int(shift) if shift >= 0 else int(shift) - 1` (PRM.py lines 690 and 694). -/
def shift_int (q : ℚ) : ℤ := if 0 ≤ q then pytrunc q else pytrunc q - 1

/-- `math.fmod(shift, 1) if shift >= 0 else math.fmod(shift, 1) + 1`
(PRM.py lines 691 and 695). -/
def shift_frac (q : ℚ) : ℚ := if 0 ≤ q then pyfmod1 q else pyfmod1 q + 1

/-- The eight numeric outputs fitoffset stores into the PRM object
(PRM.py lines 689-698), in source order. -/
structure OffsetParams : Type where
  rshift : ℤ
  sub_int_r : ℚ
  stretch_r : ℚ
  a_stretch_r : ℚ
  ashift : ℤ
  sub_int_a : ℚ
  stretch_a : ℚ
  a_stretch_a : ℚ
  deriving DecidableEq

/-- The SNR filter `matrix[np.where(matrix[:,4] > SNR)]` (PRM.py lines
658-659): keeps exactly the rows whose column 4 is strictly above SNR. -/
def snr_filter (m : List (List ℚ)) (SNR : ℚ) : List (List ℚ) :=
  m.filter (fun row => SNR < col row 4)

/-- `rng = matrix[...][:, [0, 2, 1]]` (PRM.py line 658). -/
def rng_points (m : List (List ℚ)) (SNR : ℚ) : List (List ℚ) :=
  (snr_filter m SNR).map (fun row => [col row 0, col row 2, col row 1])

/-- `azi = matrix[...][:, [0, 2, 3]]` (PRM.py line 659). -/
def azi_points (m : List (List ℚ)) (SNR : ℚ) : List (List ℚ) :=
  (snr_filter m SNR).map (fun row => [col row 0, col row 2, col row 3])

/-- `scale_coef = [np.min(rng[:,0]), np.max(rng[:,0]), np.min(rng[:,1]),
np.max(rng[:,1])]` (PRM.py line 674): bounds taken from the rng point set. -/
def scale_coef (rng : List (List ℚ)) : List ℚ :=
  [npmin (rng.map (fun row => col row 0)), npmax (rng.map (fun row => col row 0)),
   npmin (rng.map (fun row => col row 1)), npmax (rng.map (fun row => col row 1))]

/-- The three Python list reads `coef[0]`, `coef[1]`, `coef[2]` performed on
each coefficient list by lines 680-697; IndexError when the list is shorter
(the first out-of-range read raises; all failures are the same IndexError). -/
def idx3 (l : List ℚ) : Except PyErr (ℚ × ℚ × ℚ) :=
  match pyidx l 0, pyidx l 1, pyidx l 2 with
  | .ok a, .ok b, .ok c => .ok (a, b, c)
  | _, _, _ => .error .indexError

/-- The body of `PRM.fitoffset` once the measurement matrix is in hand
(PRM.py lines 657-700). `trend` models the two `PRM.robust_trend2d` calls. -/
def fitoffset_body (trend : List (List ℚ) → ℤ → Except PyErr (List ℚ))
    (rank_rng rank_azi : ℤ) (m : List (List ℚ)) (SNR : ℚ) :
    Except PyErr OffsetParams :=
  if (rng_points m SNR).length < 8 then .error .insufficientData
  else match trend (rng_points m SNR) rank_rng with
  | .error e => .error e
  | .ok rng_coef =>
    match trend (azi_points m SNR) rank_azi with
    | .error e => .error e
    | .ok azi_coef =>
      match idx3 rng_coef, idx3 azi_coef with
      | .ok (c0, c1, c2), .ok (a0, a1, a2) =>
        let s := scale_coef (rng_points m SNR)
        let dx := col s 1 - col s 0
        let dy := col s 3 - col s 2
        let rs := c0 - c1 * (col s 1 + col s 0) / dx - c2 * (col s 3 + col s 2) / dy
        let as_ := a0 - a1 * (col s 1 + col s 0) / dx - a2 * (col s 3 + col s 2) / dy
        .ok ⟨shift_int rs, shift_frac rs, c1 * 2 / dx, c2 * 2 / dy,
             shift_int as_, shift_frac as_, a1 * 2 / dx, a2 * 2 / dy⟩
      | _, _ => .error .indexError

/-- `PRM.fitoffset(rank_rng, rank_azi, matrix, matrix_fromfile, SNR)`
(PRM.py lines 608-700). The file source is modelled as the already-parsed
matrix the file would load (`np.genfromtxt` is external I/O). -/
def fitoffset (trend : List (List ℚ) → ℤ → Except PyErr (List ℚ))
    (rank_rng rank_azi : ℤ) (matrix matrix_fromfile : Option (List (List ℚ)))
    (SNR : ℚ) : Except PyErr OffsetParams :=
  match matrix, matrix_fromfile with
  | none, none => .error .invalidSource
  | some _, some _ => .error .invalidSource
  | some m, none => fitoffset_body trend rank_rng rank_azi m SNR
  | none, some m => fitoffset_body trend rank_rng rank_azi m SNR

/-- `robust_trend2d` packaged as the `trend` argument of `fitoffset`, with a
fuel bound for its unbounded loop; the `.ok []` branch is only a placeholder
for runs whose loop outlives the fuel (never reached in the concrete runs
below, whose loops terminate within the given fuel). -/
def trend_of (betainc : ℚ → ℚ → ℚ → ℚ)
    (fit : List (List ℚ) → List ℚ → List ℚ → ℚ × List ℚ)
    (fuel : ℕ) (pts : List (List ℚ)) (rank : ℤ) : Except PyErr (List ℚ) :=
  match robust_trend2d betainc fit fuel pts rank with
  | .error e => .error e
  | .ok none => .ok []
  | .ok (some l) => .ok l

set_option maxRecDepth 100000

/-! ### Properties of the weight update -/

theorem weight_update_of_le (k r : ℚ) (h : r ≤ k) : weight_update k r = 1 := by
  simp [weight_update, h]

theorem weight_update_eq_formula (k r : ℚ) (h : k < r) :
    weight_update k r = 2 * k / r - k * k / r ^ 2 := by
  simp [weight_update, not_le.mpr h]

theorem weight_update_nonneg (k r : ℚ) (hk : 0 ≤ k) (h : k < r) :
    0 ≤ weight_update k r := by
  have hr : 0 < r := lt_of_le_of_lt hk h
  rw [weight_update_eq_formula k r h]
  have e : 2 * k / r - k * k / r ^ 2 = k * (2 * r - k) / r ^ 2 := by
    field_simp
    ring
  rw [e]
  exact div_nonneg (mul_nonneg hk (by linarith)) (le_of_lt (pow_pos hr 2))

theorem weight_update_le_one (k r : ℚ) (hk : 0 ≤ k) (h : k < r) :
    weight_update k r ≤ 1 := by
  have hr : 0 < r := lt_of_le_of_lt hk h
  rw [weight_update_eq_formula k r h]
  have e : 1 - (2 * k / r - k * k / r ^ 2) = (r - k) ^ 2 / r ^ 2 := by
    field_simp
    ring
  have h2 : (0 : ℚ) ≤ (r - k) ^ 2 / r ^ 2 :=
    div_nonneg (sq_nonneg _) (le_of_lt (pow_pos hr 2))
  linarith

theorem weight_update_mono (k a b : ℚ) (hk : 0 ≤ k) (hb : k < b) (hab : b < a) :
    weight_update k a ≤ weight_update k b := by
  have hb0 : 0 < b := lt_of_le_of_lt hk hb
  have ha0 : 0 < a := lt_trans hb0 hab
  rw [weight_update_eq_formula k a (lt_trans hb hab), weight_update_eq_formula k b hb]
  have key : (2 * k / b - k * k / b ^ 2) - (2 * k / a - k * k / a ^ 2)
      = k * (a - b) * (2 * a * b - k * (a + b)) / (a ^ 2 * b ^ 2) := by
    field_simp
    ring
  have hbr : 0 ≤ 2 * a * b - k * (a + b) := by nlinarith
  have h1 : (0 : ℚ) ≤ k * (a - b) * (2 * a * b - k * (a + b)) / (a ^ 2 * b ^ 2) := by
    apply div_nonneg
    · exact mul_nonneg (mul_nonneg hk (by linarith)) hbr
    · positivity
  linarith

/-! ### Nonnegativity of the scale estimate k -/

theorem getD_nonneg (l : List ℚ) (h : ∀ x ∈ l, 0 ≤ x) : ∀ i : ℕ, 0 ≤ l.getD i 0 := by
  induction l with
  | nil => intro i; simp [List.getD]
  | cons a t ih =>
    intro i
    cases i with
    | zero => exact h a (by simp)
    | succ j => exact ih (fun x hx => h x (by simp [hx])) j

theorem npmedian_nonneg (l : List ℚ) (h : ∀ x ∈ l, 0 ≤ x) : 0 ≤ npmedian l := by
  have hs : ∀ x ∈ l.insertionSort (· ≤ ·), 0 ≤ x := fun x hx =>
    h x ((List.perm_insertionSort _ l).mem_iff.mp hx)
  unfold npmedian col
  split
  · exact le_refl 0
  · split
    · exact getD_nonneg _ hs _
    · have h1 := getD_nonneg _ hs (l.length / 2 - 1)
      have h2 := getD_nonneg _ hs (l.length / 2)
      unfold col at h1 h2
      linarith

theorem residuals_mem_nonneg (z pred : List ℚ) : ∀ x ∈ residuals z pred, 0 ≤ x := by
  intro x hx
  simp only [residuals] at hx
  obtain ⟨p, _, rfl⟩ := List.mem_map.mp hx
  exact abs_nonneg _

theorem kval_nonneg (z pred : List ℚ) : 0 ≤ kval (residuals z pred) :=
  mul_nonneg (by norm_num [MAD_NORMALIZE])
    (npmedian_nonneg _ (residuals_mem_nonneg z pred))

/-- Claim C4: at every iteration of robust_trend2d, with the absolute residual
vector `r = |z - prediction|` and threshold `k = 1.5 · 1.4826 · median(r)`, the
updated weight is exactly 1 at or below k, lies in [0, 1] above k, and is
monotonically non-increasing in the residual above k. -/
theorem robust_weights_invariant (z pred : List ℚ) :
    (∀ x ∈ residuals z pred, x ≤ kval (residuals z pred) →
      weight_update (kval (residuals z pred)) x = 1) ∧
    (∀ x ∈ residuals z pred, kval (residuals z pred) < x →
      0 ≤ weight_update (kval (residuals z pred)) x ∧
        weight_update (kval (residuals z pred)) x ≤ 1) ∧
    (∀ a b : ℚ, kval (residuals z pred) < b → b < a →
      weight_update (kval (residuals z pred)) a ≤
        weight_update (kval (residuals z pred)) b) :=
  ⟨fun x _ hx => weight_update_of_le _ x hx,
   fun x _ hx => ⟨weight_update_nonneg _ x (kval_nonneg z pred) hx,
                  weight_update_le_one _ x (kval_nonneg z pred) hx⟩,
   fun a b hb hab => weight_update_mono _ a b (kval_nonneg z pred) hb hab⟩

/-- Witness for C4 at the concrete batch z = [0,0,0,0,60,100] against the zero
prediction: the threshold evaluates to k = 0, the zero residual gets weight 1,
and the residuals 60 < 100 get ordered in-range weights. -/
theorem robust_weights_invariant_witness :
    weight_update (kval (residuals [0, 0, 0, 0, 60, 100] [0, 0, 0, 0, 0, 0])) 0 = 1 ∧
    (0 ≤ weight_update (kval (residuals [0, 0, 0, 0, 60, 100] [0, 0, 0, 0, 0, 0])) 100 ∧
      weight_update (kval (residuals [0, 0, 0, 0, 60, 100] [0, 0, 0, 0, 0, 0])) 100 ≤ 1) ∧
    weight_update (kval (residuals [0, 0, 0, 0, 60, 100] [0, 0, 0, 0, 0, 0])) 100 ≤
      weight_update (kval (residuals [0, 0, 0, 0, 60, 100] [0, 0, 0, 0, 0, 0])) 60 := by
  have h := robust_weights_invariant [0, 0, 0, 0, 60, 100] [0, 0, 0, 0, 0, 0]
  exact ⟨h.1 0 (of_decide_eq_true (by with_unfolding_all rfl))
           (of_decide_eq_true (by with_unfolding_all rfl)),
         h.2.1 100 (of_decide_eq_true (by with_unfolding_all rfl))
           (of_decide_eq_true (by with_unfolding_all rfl)),
         h.2.2 100 60 (of_decide_eq_true (by with_unfolding_all rfl))
           (of_decide_eq_true (by with_unfolding_all rfl))⟩

/-- Claim C5 counterexample (refutation): there are no k > 0 and r > 2k for
which the weight-update formula 2k/r - k²/r² of robust_trend2d is negative. -/
theorem weight_update_negative_impossible :
    ¬ ∃ k r : ℚ, 0 < k ∧ 2 * k < r ∧ weight_update k r < 0 := by
  rintro ⟨k, r, hk, hr, hneg⟩
  exact absurd (weight_update_nonneg k r (le_of_lt hk) (by linarith)) (not_le.mpr hneg)

/-- Claim C5 (amended): for every threshold k > 0 and residual r > 2k the
weight-update value of robust_trend2d is strictly positive, never negative. -/
theorem weight_update_positive_beyond_2k (k r : ℚ) (hk : 0 < k) (hr : 2 * k < r) :
    0 < weight_update k r := by
  have hkr : k < r := by linarith
  have hr0 : 0 < r := by linarith
  rw [weight_update_eq_formula k r hkr]
  have e : 2 * k / r - k * k / r ^ 2 = k * (2 * r - k) / r ^ 2 := by
    field_simp
    ring
  rw [e]
  exact div_pos (mul_pos hk (by linarith)) (pow_pos hr0 2)

/-- Witness for the amended C5 at k = 1, r = 3. -/
theorem weight_update_positive_beyond_2k_witness : 0 < weight_update 1 3 :=
  weight_update_positive_beyond_2k 1 3 (by norm_num) (by norm_num)

/-! ### Integer and fractional split of the shifts -/

theorem rat_floor_eq_floor (q : ℚ) : Rat.floor q = ⌊q⌋ :=
  (Rat.floor_def' q).trans Rat.floor_def.symm

theorem pytrunc_of_nonneg (q : ℚ) (h : 0 ≤ q) : pytrunc q = ⌊q⌋ := by
  rw [pytrunc, if_pos h, rat_floor_eq_floor]

theorem pytrunc_of_neg (q : ℚ) (h : ¬ 0 ≤ q) : pytrunc q = ⌈q⌉ := by
  rw [pytrunc, if_neg h, rat_floor_eq_floor, Int.floor_neg, neg_neg]

theorem den_one_cast_num (q : ℚ) (h : q.den = 1) : (q.num : ℚ) = q := by
  have h2 := Rat.num_div_den q
  rw [h] at h2
  simpa using h2

theorem ceil_of_den_ne_one (q : ℚ) (h : q.den ≠ 1) : ⌈q⌉ = ⌊q⌋ + 1 := by
  have hne : (⌊q⌋ : ℚ) ≠ q := by
    intro he
    exact h (by rw [← he]; exact Rat.den_intCast _)
  have hlt : (⌊q⌋ : ℚ) < q := lt_of_le_of_ne (Int.floor_le q) hne
  rw [Int.ceil_eq_iff]
  constructor
  · push_cast
    linarith
  · push_cast
    linarith [Int.lt_floor_add_one q]

/-- Claim C3 (amended): the integer/fractional split used by fitoffset agrees
with floor semantics (integer part ⌊shift⌋, fractional part shift - ⌊shift⌋)
for every shift that is not a negative integer — in particular for
shift = -0.3 it gives -1 and 0.7; but at an exact negative integer shift the
code returns ⌊shift⌋ - 1 and fractional part 1 instead of ⌊shift⌋ and 0. -/
theorem shift_split_semantics (q : ℚ) :
    (¬ (q < 0 ∧ q.den = 1) → shift_int q = ⌊q⌋ ∧ shift_frac q = q - ⌊q⌋) ∧
    (q < 0 ∧ q.den = 1 → shift_int q = ⌊q⌋ - 1 ∧ shift_frac q = 1) := by
  constructor
  · intro h
    by_cases h0 : 0 ≤ q
    · rw [shift_int, if_pos h0, pytrunc_of_nonneg q h0, shift_frac, if_pos h0, pyfmod1,
        pytrunc_of_nonneg q h0]
      exact ⟨rfl, rfl⟩
    · have hden : q.den ≠ 1 := fun hd => h ⟨not_le.mp h0, hd⟩
      have hc := ceil_of_den_ne_one q hden
      rw [shift_int, if_neg h0, pytrunc_of_neg q h0, hc, shift_frac, if_neg h0, pyfmod1,
        pytrunc_of_neg q h0, hc]
      constructor
      · ring
      · push_cast
        ring
  · rintro ⟨hneg, hden⟩
    have h0 : ¬ 0 ≤ q := not_le.mpr hneg
    have hz : ((q.num : ℤ) : ℚ) = q := den_one_cast_num q hden
    have hfl : ⌊q⌋ = q.num := by
      have h3 := Int.floor_intCast (α := ℚ) q.num
      rw [hz] at h3
      exact h3
    have hcl : ⌈q⌉ = q.num := by
      have h3 := Int.ceil_intCast (α := ℚ) q.num
      rw [hz] at h3
      exact h3
    rw [shift_int, if_neg h0, pytrunc_of_neg q h0, hcl, hfl, shift_frac, if_neg h0, pyfmod1,
      pytrunc_of_neg q h0, hcl]
    refine ⟨rfl, ?_⟩
    rw [hz]
    ring

/-- Witness for the amended C3 at shift = -0.3: floor semantics hold and give
integer part -1, fractional part 0.7. -/
theorem shift_split_semantics_witness :
    (shift_int (-3 / 10) = ⌊(-3 / 10 : ℚ)⌋ ∧
      shift_frac (-3 / 10) = -3 / 10 - ⌊(-3 / 10 : ℚ)⌋) ∧
    shift_int (-3 / 10) = -1 ∧ shift_frac (-3 / 10) = 7 / 10 :=
  ⟨(shift_split_semantics (-3 / 10)).1 (of_decide_eq_true (by with_unfolding_all rfl)),
   of_decide_eq_true (by with_unfolding_all rfl),
   of_decide_eq_true (by with_unfolding_all rfl)⟩

/-- Claim C3 counterexample: a concrete fitoffset run (8 SNR-passing points,
rank 3 fits whose retained coefficients are [-2, 0, 0]) computes the shift
value -2 exactly, a negative integer; the returned integer part is -3 with
fractional part 1, while floor semantics would require -2 and 0. -/
theorem fitoffset_floor_cex :
    trend_of (fun _ _ _ => 0) (fun xy _ _ => (-2, xy.headI.map (fun _ => 0))) 2
      (rng_points [[0, -1, 0, 1, 30], [1, -3, 1, 1, 30], [2, -1, 2, 1, 30],
        [3, -3, 3, 1, 30], [4, -1, 4, 1, 30], [5, -3, 5, 1, 30], [6, -1, 6, 1, 30],
        [7, -3, 7, 1, 30]] 20) 3 = .ok [-2, 0, 0] ∧
    (fitoffset (trend_of (fun _ _ _ => 0) (fun xy _ _ => (-2, xy.headI.map (fun _ => 0))) 2)
      3 3 (some [[0, -1, 0, 1, 30], [1, -3, 1, 1, 30], [2, -1, 2, 1, 30],
        [3, -3, 3, 1, 30], [4, -1, 4, 1, 30], [5, -3, 5, 1, 30], [6, -1, 6, 1, 30],
        [7, -3, 7, 1, 30]]) none 20).map (fun p => (p.rshift, p.sub_int_r))
      = .ok (-3, 1) ∧
    shift_int (-2) ≠ ⌊(-2 : ℚ)⌋ ∧ shift_frac (-2) ≠ -2 - ⌊(-2 : ℚ)⌋ := by
  refine ⟨by with_unfolding_all rfl, by with_unfolding_all rfl, ?_, ?_⟩
  · exact of_decide_eq_true (by with_unfolding_all rfl)
  · exact of_decide_eq_true (by with_unfolding_all rfl)

/-! ### The convergence significance -/

/-- Claim C1 counterexample: a loop pass whose chi-squared history ends with
chisq_prev = 0 while the freshly computed chisq_cur is 4 (nonzero) yields
sig = 0, not sig = 1 as the claim's chisq_prev edge case states. (The betainc
argument is irrelevant here: the edge-case branch never reaches it.) -/
theorem robust_iter_sig_prev_zero_cex :
    LoopState.chisqs ⟨[1, 1, 1, 1], [0], []⟩ = [0] ∧
    (robust_iter (fun _ _ x => x) (fun xy _ _ => (0, xy.headI.map (fun _ => 0)))
      [[0], [0], [0], [0]] [1, 1, 1, 1] ⟨[1, 1, 1, 1], [0], []⟩).2 = 0 ∧
    (0 : ℚ) ≠ 1 :=
  ⟨rfl, by with_unfolding_all rfl, by norm_num⟩

/-- Claim C1 (amended): on every iteration after the first (nonempty chi-squared
history) the significance is `gmtstat_f_q betainc chisq_cur ν chisq_prev ν` with
ν = N - 3, which equals 1 when chisq_cur = 0, equals 0 when chisq_cur ≠ 0 and
chisq_prev = 0, and otherwise equals the regularized incomplete beta call
betainc(ν/2, ν/2, chisq_prev/(chisq_prev + chisq_cur)). -/
theorem robust_iter_sig_formula (betainc : ℚ → ℚ → ℚ → ℚ)
    (fit : List (List ℚ) → List ℚ → List ℚ → ℚ × List ℚ)
    (xy : List (List ℚ)) (z : List ℚ) (st : LoopState) (h : st.chisqs ≠ []) :
    (robust_iter betainc fit xy z st).2 =
      gmtstat_f_q betainc
        (chisq_of (residuals z (xy.map (predict (fit xy z st.w).1 (fit xy z st.w).2)))
          st.w z.length)
        ((z.length : ℚ) - 3) (st.chisqs.getLast?.getD 0) ((z.length : ℚ) - 3) ∧
    ∀ cur prev nu : ℚ,
      (cur = 0 → gmtstat_f_q betainc cur nu prev nu = 1) ∧
      (cur ≠ 0 → prev = 0 → gmtstat_f_q betainc cur nu prev nu = 0) ∧
      (cur ≠ 0 → prev ≠ 0 →
        gmtstat_f_q betainc cur nu prev nu
          = betainc (1 / 2 * nu) (1 / 2 * nu) (prev / (prev + cur))) := by
  constructor
  · unfold robust_iter
    dsimp only
    rw [if_neg]
    simp only [List.length_append, List.length_singleton]
    intro hh
    exact h (List.length_eq_zero.mp (by omega))
  · intro cur prev nu
    refine ⟨fun hc => by rw [gmtstat_f_q, if_pos hc], fun hc hp => ?_, fun hc hp => ?_⟩
    · rw [gmtstat_f_q, if_neg hc, if_pos hp]
    · rw [gmtstat_f_q, if_neg hc, if_neg hp]

/-- Witness for the amended C1: a concrete non-first iteration (history [2])
whose significance evaluates through the betainc branch, with the stand-in
betainc(a, b, x) = x, to chisq_prev/(chisq_prev + chisq_cur) = -4/5. -/
theorem robust_iter_sig_formula_witness :
    (robust_iter (fun _ _ x => x) (fun _ _ _ => (0, [0])) [[0]] [3]
      ⟨[1], [2], [0]⟩).2 = -4 / 5 := by
  have h := (robust_iter_sig_formula (fun _ _ x => x) (fun _ _ _ => ((0 : ℚ), [(0 : ℚ)]))
    [[0]] [3] ⟨[1], [2], [0]⟩ (by simp)).1
  rw [h]
  with_unfolding_all rfl

/-! ### Divergence on an exact fit -/

theorem getD_all_zero (l : List ℚ) (h : ∀ x ∈ l, x = 0) : ∀ i : ℕ, l.getD i 0 = 0 := by
  induction l with
  | nil => intro i; simp [List.getD]
  | cons a t ih =>
    intro i
    cases i with
    | zero => exact h a (by simp)
    | succ j => exact ih (fun x hx => h x (by simp [hx])) j

theorem npmedian_all_zero (l : List ℚ) (h : ∀ x ∈ l, x = 0) : npmedian l = 0 := by
  have hs : ∀ x ∈ l.insertionSort (· ≤ ·), x = 0 := fun x hx =>
    h x ((List.perm_insertionSort _ l).mem_iff.mp hx)
  have hg := getD_all_zero _ hs
  unfold npmedian col
  split
  · rfl
  · split
    · exact hg _
    · rw [hg _, hg _]
      norm_num

theorem residuals_self (z : List ℚ) : residuals z z = List.replicate z.length 0 := by
  induction z with
  | nil => rfl
  | cons a t ih =>
    simp only [residuals, List.zip_cons_cons, List.map_cons, List.length_cons,
      List.replicate_succ, sub_self, abs_zero]
    simp only [residuals] at ih
    rw [ih]

theorem chisq_of_zero_residuals (w : List ℚ) (n m : ℕ) :
    chisq_of (List.replicate m 0) w n = 0 := by
  rw [chisq_of]
  have hz : ∀ x ∈ (List.zip (List.replicate m (0 : ℚ)) w).map (fun p => p.1 ^ 2 * p.2),
      x = 0 := by
    intro x hx
    obtain ⟨p, hp, rfl⟩ := List.mem_map.mp hx
    have h1 : p.1 ∈ List.replicate m (0 : ℚ) := (List.of_mem_zip hp).1
    rw [List.eq_of_mem_replicate h1]
    ring
  rw [List.sum_eq_zero hz, zero_div]

theorem kval_replicate_zero (m : ℕ) : kval (List.replicate m 0) = 0 := by
  rw [kval, npmedian_all_zero _ (fun x hx => List.eq_of_mem_replicate hx), mul_zero]

/-- Under a fit that reproduces z exactly at the all-ones weights, one loop pass
keeps the weights at all-ones and reports significance 1. -/
theorem robust_iter_exact (betainc : ℚ → ℚ → ℚ → ℚ)
    (fit : List (List ℚ) → List ℚ → List ℚ → ℚ × List ℚ)
    (xy : List (List ℚ)) (z : List ℚ) (st : LoopState)
    (hw : st.w = List.replicate z.length 1)
    (hfit : xy.map (predict (fit xy z (List.replicate z.length 1)).1
      (fit xy z (List.replicate z.length 1)).2) = z) :
    (robust_iter betainc fit xy z st).1.w = List.replicate z.length 1 ∧
    (robust_iter betainc fit xy z st).2 = 1 := by
  unfold robust_iter
  dsimp only
  rw [hw, hfit, residuals_self, chisq_of_zero_residuals, kval_replicate_zero,
    List.map_replicate, weight_update_of_le 0 0 (le_refl 0)]
  refine ⟨rfl, ?_⟩
  split
  · rfl
  · rw [gmtstat_f_q, if_pos rfl]

/-- Under a fit that reproduces z exactly at the all-ones weights, the loop
never breaks: every fuel value is exhausted. -/
theorem robust_loop_exact_fit (betainc : ℚ → ℚ → ℚ → ℚ)
    (fit : List (List ℚ) → List ℚ → List ℚ → ℚ × List ℚ)
    (xy : List (List ℚ)) (z : List ℚ)
    (hfit : xy.map (predict (fit xy z (List.replicate z.length 1)).1
      (fit xy z (List.replicate z.length 1)).2) = z) :
    ∀ (fuel : ℕ) (st : LoopState), st.w = List.replicate z.length 1 →
      robust_loop betainc fit xy z fuel st = none := by
  intro fuel
  induction fuel with
  | zero => intro st _; rfl
  | succ n ih =>
    intro st hw
    obtain ⟨hw', hsig⟩ := robust_iter_exact betainc fit xy z st hw hfit
    rw [robust_loop]
    rw [hsig, if_neg (by norm_num [sig_threshold])]
    exact ih _ hw'

/-- Claim C10: whenever the weighted fit at the all-ones initial weights
reproduces z exactly (all residuals zero), robust_trend2d's convergence loop
never terminates: the chi-squared is 0 on every pass, the significance helper
returns 1 whenever the current chi-squared is 0, so sig < 0.51 is never
reached and every fuel bound is exhausted. -/
theorem robust_trend2d_exact_fit_diverges (betainc : ℚ → ℚ → ℚ → ℚ)
    (fit : List (List ℚ) → List ℚ → List ℚ → ℚ × List ℚ)
    (data : List (List ℚ)) (rank : ℤ)
    (hrank : rank = 1 ∨ rank = 2 ∨ rank = 3) (hN : 4 ≤ data.length)
    (hfit : (design data rank).map
      (predict (fit (design data rank) (data.map (fun row => col row 2))
          (List.replicate (data.map (fun row => col row 2)).length 1)).1
        (fit (design data rank) (data.map (fun row => col row 2))
          (List.replicate (data.map (fun row => col row 2)).length 1)).2)
      = data.map (fun row => col row 2)) :
    ∀ fuel : ℕ, robust_trend2d betainc fit fuel data rank = .ok none := by
  intro fuel
  unfold robust_trend2d
  rw [if_pos hrank,
    robust_loop_exact_fit betainc fit _ _ hfit fuel _ rfl]

/-- Witness for C10: four points with constant z = 5 and the constant fit
(intercept 5, slope 0) reproduce z exactly; with fuel 3 the loop is still
running. -/
theorem robust_trend2d_exact_fit_diverges_witness :
    robust_trend2d (fun _ _ _ => 0) (fun _ _ _ => (5, [0])) 3
      [[0, 0, 5], [1, 0, 5], [2, 0, 5], [3, 0, 5]] 2 = .ok none :=
  robust_trend2d_exact_fit_diverges (fun _ _ _ => 0) (fun _ _ _ => (5, [0]))
    [[0, 0, 5], [1, 0, 5], [2, 0, 5], [3, 0, 5]] 2 (Or.inr (Or.inl rfl)) (by simp)
    (by with_unfolding_all rfl) 3

/-! ### The rank contract of robust_trend2d -/

/-- After any loop pass, the retained coefficient list is the intercept of some
fit consed onto its slope list (the pass either installs the fresh fit or keeps
a previously installed one). -/
theorem robust_iter_coeffs_shape (betainc : ℚ → ℚ → ℚ → ℚ)
    (fit : List (List ℚ) → List ℚ → List ℚ → ℚ × List ℚ)
    (xy : List (List ℚ)) (z : List ℚ) (st : LoopState)
    (hinv : st.chisqs ≠ [] → ∃ w', st.coeffs = (fit xy z w').1 :: (fit xy z w').2) :
    ∃ w', (robust_iter betainc fit xy z st).1.coeffs
      = (fit xy z w').1 :: (fit xy z w').2 := by
  unfold robust_iter
  dsimp only
  split
  · exact ⟨st.w, rfl⟩
  · next hcond =>
    have hne : st.chisqs ≠ [] := by
      intro he
      exact hcond (Or.inl (by simp [he]))
    exact hinv hne

theorem robust_loop_some_shape (betainc : ℚ → ℚ → ℚ → ℚ)
    (fit : List (List ℚ) → List ℚ → List ℚ → ℚ × List ℚ)
    (xy : List (List ℚ)) (z : List ℚ) :
    ∀ (fuel : ℕ) (st : LoopState) (l : List ℚ),
      (st.chisqs ≠ [] → ∃ w', st.coeffs = (fit xy z w').1 :: (fit xy z w').2) →
      robust_loop betainc fit xy z fuel st = some l →
      ∃ w', l = (fit xy z w').1 :: (fit xy z w').2 := by
  intro fuel
  induction fuel with
  | zero => intro st l _ hl; cases hl
  | succ n ih =>
    intro st l hinv hl
    rw [robust_loop] at hl
    split at hl
    · obtain ⟨w', hw⟩ := robust_iter_coeffs_shape betainc fit xy z st hinv
      exact ⟨w', by rw [← Option.some_inj.mp hl, hw]⟩
    · refine ih _ l ?_ hl
      intro _
      exact robust_iter_coeffs_shape betainc fit xy z st hinv

/-- Claim C8: robust_trend2d raises the invalid-rank exception exactly when
rank ∉ {1,2,3}; for every rank ∈ {1,2,3}, every input of length N ≥ 4, and a
fit returning one coefficient per regressor column (as sklearn does), any
terminating run returns exactly rank coefficients — the first rank entries of
the retained fit's intercept followed by its slopes in input order. -/
theorem robust_trend2d_rank_contract (betainc : ℚ → ℚ → ℚ → ℚ)
    (fit : List (List ℚ) → List ℚ → List ℚ → ℚ × List ℚ)
    (fuel : ℕ) (data : List (List ℚ)) (rank : ℤ) :
    (robust_trend2d betainc fit fuel data rank = .error .invalidRank ↔
      ¬(rank = 1 ∨ rank = 2 ∨ rank = 3)) ∧
    (∀ l : List ℚ, rank = 1 ∨ rank = 2 ∨ rank = 3 → 4 ≤ data.length →
      (∀ w', ((fit (design data rank) (data.map (fun row => col row 2)) w').2).length
        = if rank = 3 then 2 else 1) →
      robust_trend2d betainc fit fuel data rank = .ok (some l) →
      l.length = rank.toNat ∧
      ∃ w', l = ((fit (design data rank) (data.map (fun row => col row 2)) w').1 ::
        (fit (design data rank) (data.map (fun row => col row 2)) w').2).take rank.toNat) := by
  constructor
  · by_cases hv : rank = 1 ∨ rank = 2 ∨ rank = 3
    · unfold robust_trend2d
      rw [if_pos hv]
      rcases hloop : robust_loop betainc fit (design data rank)
          (data.map (fun row => col row 2)) fuel
          ⟨List.replicate (data.map (fun row => col row 2)).length 1, [], []⟩ with _ | cs
      · simp [hv]
      · simp [hv]
    · unfold robust_trend2d
      rw [if_neg hv]
      simp [hv]
  · intro l hv _ hfit heq
    unfold robust_trend2d at heq
    rw [if_pos hv] at heq
    rcases hloop : robust_loop betainc fit (design data rank)
        (data.map (fun row => col row 2)) fuel
        ⟨List.replicate (data.map (fun row => col row 2)).length 1, [], []⟩ with _ | cs
    · rw [hloop] at heq
      cases heq
    · rw [hloop] at heq
      obtain ⟨w', hshape⟩ := robust_loop_some_shape betainc fit _ _ fuel _ cs
        (fun hne => absurd rfl hne) hloop
      have hl : l = cs.take rank.toNat := (Option.some_inj.mp (Except.ok.inj heq)).symm
      constructor
      · rw [hl, List.length_take, hshape, List.length_cons, hfit w']
        rcases hv with rfl | rfl | rfl
        · rfl
        · rfl
        · rfl
      · exact ⟨w', by rw [hl, hshape]⟩

/-- Witness for C8: a concrete terminating rank-2 run (4 points, constant-zero
fit, two loop passes) returns the 2 coefficients [0, 0]. -/
theorem robust_trend2d_rank_contract_witness :
    ((2 : ℤ) = 1 ∨ (2 : ℤ) = 2 ∨ (2 : ℤ) = 3) ∧
    ([(0 : ℚ), 0].length = (2 : ℤ).toNat) :=
  ⟨Or.inr (Or.inl rfl),
   ((robust_trend2d_rank_contract (fun _ _ _ => 0)
      (fun xy _ _ => (0, xy.headI.map (fun _ => 0)))
      2 [[0, 0, 1], [1, 0, 1], [2, 0, 1], [3, 0, 1]] 2).2 [0, 0]
      (Or.inr (Or.inl rfl)) (by simp)
      (fun w' => by with_unfolding_all rfl)
      (by with_unfolding_all rfl)).1⟩

/-! ### fitoffset: matrix source, SNR filter, coefficient conversion -/

theorem fitoffset_some_none (trend : List (List ℚ) → ℤ → Except PyErr (List ℚ))
    (r1 r2 : ℤ) (m : List (List ℚ)) (SNR : ℚ) :
    fitoffset trend r1 r2 (some m) none SNR = fitoffset_body trend r1 r2 m SNR := rfl

theorem idx3_cons3 (a b c : ℚ) (t : List ℚ) : idx3 (a :: b :: c :: t) = .ok (a, b, c) := rfl

theorem idx3_short (l : List ℚ) (h : l.length ≤ 2) : idx3 l = .error .indexError := by
  have h2 : pyidx l 2 = .error .indexError := by
    rw [pyidx, List.get?_eq_none.mpr h]
  rcases h0 : pyidx l 0 with e0 | v0 <;> rcases h1 : pyidx l 1 with e1 | v1 <;>
    simp [idx3, h0, h1, h2]

theorem fitoffset_body_error_of_enough (trend : List (List ℚ) → ℤ → Except PyErr (List ℚ))
    (r1 r2 : ℤ) (m : List (List ℚ)) (SNR : ℚ) (e : PyErr)
    (h8 : ¬ (rng_points m SNR).length < 8)
    (h : fitoffset_body trend r1 r2 m SNR = .error e) :
    e = .indexError ∨ trend (rng_points m SNR) r1 = .error e ∨
      trend (azi_points m SNR) r2 = .error e := by
  rw [fitoffset_body, if_neg h8] at h
  rcases hr : trend (rng_points m SNR) r1 with er | lr
  · rw [hr] at h
    dsimp only at h
    injection h with h'
    exact Or.inr (Or.inl (congrArg Except.error h'))
  · rw [hr] at h
    rcases ha : trend (azi_points m SNR) r2 with ea | la
    · rw [ha] at h
      dsimp only at h
      injection h with h'
      exact Or.inr (Or.inr (congrArg Except.error h'))
    · rw [ha] at h
      dsimp only at h
      rcases hi : idx3 lr with ei | ⟨ic0, ic1, ic2⟩ <;> rw [hi] at h <;>
        rcases hj : idx3 la with ej | ⟨ja0, ja1, ja2⟩ <;> rw [hj] at h <;> dsimp only at h
      · injection h with h'
        exact Or.inl h'.symm
      · injection h with h'
        exact Or.inl h'.symm
      · injection h with h'
        exact Or.inl h'.symm
      · exact Except.noConfusion h

/-- Symbolic evaluation of fitoffset_body when both trend calls return three
coefficients: the record of PRM.py lines 689-698 with
scale_coef = [s0, s1, s2, s3]. -/
theorem fitoffset_body_eval (trend : List (List ℚ) → ℤ → Except PyErr (List ℚ))
    (r1 r2 : ℤ) (m : List (List ℚ)) (SNR : ℚ) (c0 c1 c2 a0 a1 a2 s0 s1 s2 s3 : ℚ)
    (hr : trend (rng_points m SNR) r1 = .ok [c0, c1, c2])
    (ha : trend (azi_points m SNR) r2 = .ok [a0, a1, a2])
    (h8 : ¬ (rng_points m SNR).length < 8)
    (hs : scale_coef (rng_points m SNR) = [s0, s1, s2, s3]) :
    fitoffset_body trend r1 r2 m SNR = .ok
      ⟨shift_int (c0 - c1 * (s1 + s0) / (s1 - s0) - c2 * (s3 + s2) / (s3 - s2)),
       shift_frac (c0 - c1 * (s1 + s0) / (s1 - s0) - c2 * (s3 + s2) / (s3 - s2)),
       c1 * 2 / (s1 - s0), c2 * 2 / (s3 - s2),
       shift_int (a0 - a1 * (s1 + s0) / (s1 - s0) - a2 * (s3 + s2) / (s3 - s2)),
       shift_frac (a0 - a1 * (s1 + s0) / (s1 - s0) - a2 * (s3 + s2) / (s3 - s2)),
       a1 * 2 / (s1 - s0), a2 * 2 / (s3 - s2)⟩ := by
  rw [fitoffset_body, if_neg h8, hr, ha]
  dsimp only
  rw [idx3_cons3, idx3_cons3, hs]
  rfl

/-- Claim C9: fitoffset hands the trend fitter the SNR-filtered input reindexed
by columns [0,2,1] for range and [0,2,3] for azimuth, and computes all four
stretch outputs as coef · 2/(max - min) with the scale bounds (min/max of the
first two columns) of the *range* point set for both fits — the azimuth
stretches reuse the rng bounds rather than recomputing them. -/
theorem fitoffset_columns_and_stretch (trend : List (List ℚ) → ℤ → Except PyErr (List ℚ))
    (rank_rng rank_azi : ℤ) (m : List (List ℚ)) (SNR : ℚ) (c0 c1 c2 a0 a1 a2 : ℚ)
    (hr : trend ((snr_filter m SNR).map (fun row => [col row 0, col row 2, col row 1]))
      rank_rng = .ok [c0, c1, c2])
    (ha : trend ((snr_filter m SNR).map (fun row => [col row 0, col row 2, col row 3]))
      rank_azi = .ok [a0, a1, a2])
    (h8 : ¬ (snr_filter m SNR).length < 8) :
    (fitoffset trend rank_rng rank_azi (some m) none SNR).map
      (fun p => (p.stretch_r, p.a_stretch_r, p.stretch_a, p.a_stretch_a)) = .ok
      (c1 * 2 / (npmax ((rng_points m SNR).map (fun row => col row 0)) -
         npmin ((rng_points m SNR).map (fun row => col row 0))),
       c2 * 2 / (npmax ((rng_points m SNR).map (fun row => col row 1)) -
         npmin ((rng_points m SNR).map (fun row => col row 1))),
       a1 * 2 / (npmax ((rng_points m SNR).map (fun row => col row 0)) -
         npmin ((rng_points m SNR).map (fun row => col row 0))),
       a2 * 2 / (npmax ((rng_points m SNR).map (fun row => col row 1)) -
         npmin ((rng_points m SNR).map (fun row => col row 1)))) := by
  have h8' : ¬ (rng_points m SNR).length < 8 := by
    rw [rng_points, List.length_map]
    exact h8
  rw [fitoffset_some_none, fitoffset_body_eval trend rank_rng rank_azi m SNR c0 c1 c2 a0 a1 a2
    (npmin ((rng_points m SNR).map (fun row => col row 0)))
    (npmax ((rng_points m SNR).map (fun row => col row 0)))
    (npmin ((rng_points m SNR).map (fun row => col row 1)))
    (npmax ((rng_points m SNR).map (fun row => col row 1)))
    hr ha h8' rfl]
  rfl

/-- Witness for C9: a concrete 8-row matrix whose range fit returns [1,2,3] and
azimuth fit returns [4,5,6]; both coordinate spans are 7, so the stretches are
(2·2/7, 3·2/7, 5·2/7, 6·2/7). -/
theorem fitoffset_columns_and_stretch_witness :
    (fitoffset (fun pts _ => if col pts.headI 2 < 50 then Except.ok [1, 2, 3]
        else Except.ok [4, 5, 6]) 3 3
      (some [[0, 10, 0, 50, 30], [1, 11, 1, 51, 30], [2, 12, 2, 52, 30],
        [3, 13, 3, 53, 30], [4, 14, 4, 54, 30], [5, 15, 5, 55, 30],
        [6, 16, 6, 56, 30], [7, 17, 7, 57, 30]]) none 20).map
      (fun p => (p.stretch_r, p.a_stretch_r, p.stretch_a, p.a_stretch_a)) =
      .ok (4 / 7, 6 / 7, 10 / 7, 12 / 7) := by
  rw [fitoffset_columns_and_stretch
    (fun pts _ => if col pts.headI 2 < 50 then Except.ok [1, 2, 3] else Except.ok [4, 5, 6])
    3 3 _ 20 1 2 3 4 5 6 (by with_unfolding_all rfl) (by with_unfolding_all rfl)
    (of_decide_eq_true (by with_unfolding_all rfl))]
  with_unfolding_all rfl

/-- Claim C2 (amended): fitoffset converts coefficients with the full
three-term formula shift = coef[0] - coef[1]·(max_x+min_x)/(max_x-min_x)
- coef[2]·(max_y+min_y)/(max_y-min_y), indexing coef[1] and coef[2]
unconditionally; the coef[2] term is never omitted, so when a rank-1 or rank-2
fit returns fewer than three coefficients the conversion fails with IndexError
instead of succeeding with OffsetParameters. -/
theorem fitoffset_shift_formula (trend : List (List ℚ) → ℤ → Except PyErr (List ℚ))
    (m : List (List ℚ)) (SNR : ℚ) :
    (∀ (rank_rng rank_azi : ℤ) (lr la : List ℚ),
      trend (rng_points m SNR) rank_rng = .ok lr →
      trend (azi_points m SNR) rank_azi = .ok la →
      lr.length ≤ 2 ∨ la.length ≤ 2 →
      ¬ (rng_points m SNR).length < 8 →
      fitoffset trend rank_rng rank_azi (some m) none SNR = .error .indexError) ∧
    (∀ (rank_rng rank_azi : ℤ) (c0 c1 c2 a0 a1 a2 : ℚ),
      trend (rng_points m SNR) rank_rng = .ok [c0, c1, c2] →
      trend (azi_points m SNR) rank_azi = .ok [a0, a1, a2] →
      ¬ (rng_points m SNR).length < 8 →
      (fitoffset trend rank_rng rank_azi (some m) none SNR).map (fun p => p.rshift)
        = .ok (shift_int (c0 -
          c1 * (npmax ((rng_points m SNR).map (fun row => col row 0)) +
            npmin ((rng_points m SNR).map (fun row => col row 0))) /
            (npmax ((rng_points m SNR).map (fun row => col row 0)) -
              npmin ((rng_points m SNR).map (fun row => col row 0))) -
          c2 * (npmax ((rng_points m SNR).map (fun row => col row 1)) +
            npmin ((rng_points m SNR).map (fun row => col row 1))) /
            (npmax ((rng_points m SNR).map (fun row => col row 1)) -
              npmin ((rng_points m SNR).map (fun row => col row 1)))))) := by
  constructor
  · intro rank_rng rank_azi lr la hr ha hshort h8
    rw [fitoffset_some_none, fitoffset_body, if_neg h8, hr, ha]
    dsimp only
    rcases hshort with hs | hs
    · rw [idx3_short lr hs]
    · rw [idx3_short la hs]
      rcases hi : idx3 lr with ei | ⟨ic0, ic1, ic2⟩ <;> rfl
  · intro rank_rng rank_azi c0 c1 c2 a0 a1 a2 hr ha h8
    rw [fitoffset_some_none, fitoffset_body_eval trend rank_rng rank_azi m SNR c0 c1 c2 a0 a1 a2
      (npmin ((rng_points m SNR).map (fun row => col row 0)))
      (npmax ((rng_points m SNR).map (fun row => col row 0)))
      (npmin ((rng_points m SNR).map (fun row => col row 1)))
      (npmax ((rng_points m SNR).map (fun row => col row 1)))
      hr ha h8 rfl]
    rfl

/-- Witness for the amended C2: with a trend returning 2 coefficients at rank 2
(as robust_trend2d does) and 3 at rank 3, a rank_rng = 2 call fails with
IndexError. -/
theorem fitoffset_shift_formula_witness :
    fitoffset (fun _ rk => if rk = 2 then Except.ok [0, 0] else Except.ok [0, 0, 0]) 2 3
      (some [[0, 1, 0, 1, 30], [1, 1, 1, 1, 30], [2, 1, 2, 1, 30], [3, 1, 3, 1, 30],
        [4, 1, 4, 1, 30], [5, 1, 5, 1, 30], [6, 1, 6, 1, 30], [7, 1, 7, 1, 30]]) none 20
      = .error .indexError :=
  (fitoffset_shift_formula
    (fun _ rk => if rk = 2 then Except.ok [0, 0] else Except.ok [0, 0, 0]) _ 20).1
    2 3 [0, 0] [0, 0, 0] (by with_unfolding_all rfl) (by with_unfolding_all rfl)
    (Or.inl (by norm_num))
    (of_decide_eq_true (by with_unfolding_all rfl))

/-- Claim C2 counterexample: a concrete fitoffset call with rank_rng = 2 — the
embedded robust_trend2d run terminates and returns the 2 coefficients [0, 0] —
fails with IndexError instead of succeeding with OffsetParameters. -/
theorem fitoffset_low_rank_cex :
    trend_of (fun _ _ _ => 0) (fun xy _ _ => (0, xy.headI.map (fun _ => 0))) 2
      (rng_points [[0, 1, 0, 1, 30], [1, 1, 1, 1, 30], [2, 1, 2, 1, 30], [3, 1, 3, 1, 30],
        [4, 1, 4, 1, 30], [5, 1, 5, 1, 30], [6, 1, 6, 1, 30], [7, 1, 7, 1, 30]] 20) 2
      = .ok [0, 0] ∧
    fitoffset (trend_of (fun _ _ _ => 0) (fun xy _ _ => (0, xy.headI.map (fun _ => 0))) 2)
      2 3 (some [[0, 1, 0, 1, 30], [1, 1, 1, 1, 30], [2, 1, 2, 1, 30], [3, 1, 3, 1, 30],
        [4, 1, 4, 1, 30], [5, 1, 5, 1, 30], [6, 1, 6, 1, 30], [7, 1, 7, 1, 30]]) none 20
      = .error .indexError :=
  ⟨by with_unfolding_all rfl, by with_unfolding_all rfl⟩

/-- Claim C6: with a single matrix source and a trend that never raises the
insufficient-data exception (robust_trend2d never does), fitoffset raises
InsufficientData exactly when fewer than 8 rows have SNR (column index 4)
strictly above the threshold — rows equal to the threshold are discarded. -/
theorem fitoffset_snr_insufficient (trend : List (List ℚ) → ℤ → Except PyErr (List ℚ))
    (r1 r2 : ℤ) (m : List (List ℚ)) (SNR : ℚ)
    (htrend : ∀ pts rk, trend pts rk ≠ .error .insufficientData) :
    fitoffset trend r1 r2 (some m) none SNR = .error .insufficientData ↔
      (m.filter (fun row => SNR < col row 4)).length < 8 := by
  rw [fitoffset_some_none]
  constructor
  · intro h
    by_contra hlen
    have h8 : ¬ (rng_points m SNR).length < 8 := by
      rw [rng_points, List.length_map, snr_filter]
      exact hlen
    rcases fitoffset_body_error_of_enough trend r1 r2 m SNR _ h8 h with h1 | h1 | h1
    · cases h1
    · exact htrend _ _ h1
    · exact htrend _ _ h1
  · intro h
    rw [fitoffset_body, if_pos (by rw [rng_points, List.length_map, snr_filter]; exact h)]

/-- Witness for C6: a 9-row matrix with 8 rows at SNR 30 and one row exactly at
the threshold 20; the strict filter keeps 8 rows and no InsufficientData is
raised. -/
theorem fitoffset_snr_insufficient_witness :
    (([[0, 0, 0, 0, 30], [1, 0, 1, 0, 30], [2, 0, 2, 0, 30], [3, 0, 3, 0, 30],
       [4, 0, 4, 0, 30], [5, 0, 5, 0, 30], [6, 0, 6, 0, 30], [7, 0, 7, 0, 30],
       [8, 0, 8, 0, 20]] : List (List ℚ)).filter
      (fun row => (20 : ℚ) < col row 4)).length = 8 ∧
    fitoffset (fun _ _ => Except.ok [0, 0, 0]) 3 3
      (some [[0, 0, 0, 0, 30], [1, 0, 1, 0, 30], [2, 0, 2, 0, 30], [3, 0, 3, 0, 30],
        [4, 0, 4, 0, 30], [5, 0, 5, 0, 30], [6, 0, 6, 0, 30], [7, 0, 7, 0, 30],
        [8, 0, 8, 0, 20]]) none 20 ≠ .error .insufficientData :=
  ⟨of_decide_eq_true (by with_unfolding_all rfl),
   fun h => absurd
     ((fitoffset_snr_insufficient (fun _ _ => Except.ok [0, 0, 0]) 3 3 _ 20
       (fun _ _ hc => Except.noConfusion hc)).mp h)
     (of_decide_eq_true (by with_unfolding_all rfl))⟩

/-- Claim C7: fitoffset raises the matrix-source InvalidArgument exactly when
both the in-memory matrix and the file source are supplied, or neither is;
with exactly one source supplied this error is never raised. -/
theorem fitoffset_source_check (trend : List (List ℚ) → ℤ → Except PyErr (List ℚ))
    (r1 r2 : ℤ) (mat file : Option (List (List ℚ))) (SNR : ℚ)
    (htrend : ∀ pts rk, trend pts rk ≠ .error .invalidSource) :
    fitoffset trend r1 r2 mat file SNR = .error .invalidSource ↔
      ((mat = none ∧ file = none) ∨ (mat ≠ none ∧ file ≠ none)) := by
  have hbody : ∀ m, fitoffset_body trend r1 r2 m SNR ≠ .error .invalidSource := by
    intro m h
    by_cases h8 : (rng_points m SNR).length < 8
    · rw [fitoffset_body, if_pos h8] at h
      injection h with h'
      cases h'
    · rcases fitoffset_body_error_of_enough trend r1 r2 m SNR _ h8 h with h1 | h1 | h1
      · cases h1
      · exact htrend _ _ h1
      · exact htrend _ _ h1
  rcases mat with _ | mv <;> rcases file with _ | fv
  · simp [fitoffset]
  · simp [fitoffset, hbody fv]
  · simp [fitoffset, hbody mv]
  · simp [fitoffset]

/-- Witness for C7: with no source the matrix-source error is raised; with
exactly one source (an in-memory matrix) it is not. -/
theorem fitoffset_source_check_witness :
    fitoffset (fun _ _ => Except.ok [0, 0, 0]) 3 3 none none 20
      = .error .invalidSource ∧
    fitoffset (fun _ _ => Except.ok [0, 0, 0]) 3 3
      (some [[0, 0, 0, 0, 30]]) none 20 ≠ .error .invalidSource :=
  ⟨(fitoffset_source_check (fun _ _ => Except.ok [0, 0, 0]) 3 3 none none 20
      (fun _ _ h => Except.noConfusion h)).mpr (Or.inl ⟨rfl, rfl⟩),
   fun h => by
     rcases (fitoffset_source_check (fun _ _ => Except.ok [0, 0, 0]) 3 3 _ none 20
         (fun _ _ hc => Except.noConfusion hc)).mp h with ⟨h1, _⟩ | ⟨_, h2⟩
     · cases h1
     · exact h2 rfl⟩
